import Mathlib

/-!
Verification of the BNO08x example programs (SHTP framing, polling, advertisement
parsing, soft reset, set-feature commands, and quaternion-to-Euler conversion).

Byte slices are modelled as `List Nat` with every element < 256 where it matters;
Go's `uint8`/`uint16` wraparound is made explicit with `% 256` / `% 65536`.
-/

/-- SHTP frame construction and per-channel sequence bookkeeping, from
`sendOnChannel` in `comprehensive_test/main.go` (lines 185-194) and the identical
copy in the channel-debug program.  The Go code allocates a `4+len(payload)` byte
frame, stores `uint16(frameLen)` little-endian in bytes 0-1, the channel in
byte 2, the current channel counter in byte 3, copies the payload at offset 4,
and increments the channel counter (a `uint8`, so mod 256). -/
def sendOnChannel (seq : Fin 6 → Nat) (channel : Fin 6) (payload : List Nat) :
    List Nat × (Fin 6 → Nat) :=
  let frameLen := 4 + payload.length
  let frame := (frameLen % 65536) % 256 :: ((frameLen % 65536) / 256) % 256 ::
    channel.val :: seq channel % 256 :: payload
  (frame, Function.update seq channel ((seq channel + 1) % 256))

/-- C1: a frame sent on channel `c` with payload `p` carries `4 + len p`
little-endian in its first two bytes, `c` in byte 2, the channel-`c` counter in
byte 3 and `p` from byte 4 on; exactly the channel-`c` counter is incremented
(mod 256), and a consecutive send on the same channel carries a sequence byte
one larger mod 256. -/
theorem sendOnChannel_header_and_seq (seq : Fin 6 → Nat) (c : Fin 6)
    (p p2 : List Nat) (hlen : 4 + p.length < 65536) (hseq : seq c < 256) :
    (sendOnChannel seq c p).1.getD 0 0 + 256 * (sendOnChannel seq c p).1.getD 1 0
        = 4 + p.length ∧
    (sendOnChannel seq c p).1.getD 2 0 = c.val ∧
    (sendOnChannel seq c p).1.getD 3 0 = seq c ∧
    (sendOnChannel seq c p).1.drop 4 = p ∧
    (sendOnChannel seq c p).1.length = 4 + p.length ∧
    (sendOnChannel seq c p).2 c = (seq c + 1) % 256 ∧
    (∀ c2 : Fin 6, c2 ≠ c → (sendOnChannel seq c p).2 c2 = seq c2) ∧
    (sendOnChannel (sendOnChannel seq c p).2 c p2).1.getD 3 0
        = ((sendOnChannel seq c p).1.getD 3 0 + 1) % 256 := by
  refine ⟨?_, rfl, ?_, rfl, ?_, ?_, ?_, ?_⟩
  · show (4 + p.length) % 65536 % 256 + 256 * ((4 + p.length) % 65536 / 256 % 256)
        = 4 + p.length
    omega
  · show seq c % 256 = seq c
    omega
  · simp [sendOnChannel]
    omega
  · simp [sendOnChannel]
  · intro c2 hc2
    simp [sendOnChannel, Function.update_noteq hc2]
  · show Function.update seq c ((seq c + 1) % 256) c % 256 = (seq c % 256 + 1) % 256
    simp only [Function.update_same]
    omega

/-- Witness for `sendOnChannel_header_and_seq` at a concrete send: the
product-ID request `F9 00` on channel 2 with fresh counters. -/
theorem sendOnChannel_header_and_seq_witness :
    4 + ([249, 0] : List Nat).length < 65536 ∧ (fun _ : Fin 6 => 0) 2 < 256 ∧
    (sendOnChannel (fun _ => 0) 2 [249, 0]).1.getD 0 0 +
      256 * (sendOnChannel (fun _ => 0) 2 [249, 0]).1.getD 1 0
        = 4 + ([249, 0] : List Nat).length :=
  ⟨by decide, by decide,
    (sendOnChannel_header_and_seq (fun _ => 0) 2 [249, 0] []
      (by decide) (by decide)).1⟩

/-- One poll of the bus, from the polling loop of `comprehensive_test/main.go`
(lines 128-167): the 16-bit little-endian length from header bytes 0-1 is
checked for the continuation bit (`length & 0x8000 != 0`), for zero, then
masked with `0x7FFF` and range-checked (`0 < length < 500`); only then is the
full packet re-read.  The loop body never touches the per-channel sequence
counters, so they are passed through unchanged.  The first component is the
size of the second (full-packet) read, or `none` when the header is discarded
and no packet is processed. -/
def pollHeaderStep (seq : Fin 6 → Nat) (b0 b1 : Nat) : Option Nat × (Fin 6 → Nat) :=
  let length := b0 + 256 * b1
  if length &&& 32768 ≠ 0 then (none, seq)
  else if length = 0 then (none, seq)
  else
    let masked := length &&& 32767
    if 0 < masked ∧ masked < 500 then (some masked, seq) else (none, seq)

/-- C3: a polled header is discarded (no second read, no packet processed, all
six sequence counters unchanged) exactly when bit 15 of the length is set, the
length is zero, or the length reaches the sanity cap 500; otherwise the packet
is read at the `0x7FFF`-masked length. -/
theorem pollHeaderStep_discard_iff (seq : Fin 6 → Nat) (b0 b1 : Nat)
    (hb0 : b0 < 256) (hb1 : b1 < 256) :
    (pollHeaderStep seq b0 b1).2 = seq ∧
    ((pollHeaderStep seq b0 b1).1 = none ↔
      ((b0 + 256 * b1).testBit 15 = true ∨ b0 + 256 * b1 = 0 ∨
        500 ≤ b0 + 256 * b1)) ∧
    (∀ m, (pollHeaderStep seq b0 b1).1 = some m →
      m = (b0 + 256 * b1) &&& 32767 ∧ m = b0 + 256 * b1) := by
  have hn65 : b0 + 256 * b1 < 65536 := by omega
  simp only [pollHeaderStep]
  generalize hg : b0 + 256 * b1 = n
  rw [hg] at hn65
  have h15 : n &&& 32768 = (n.testBit 15).toNat * 32768 := by
    have := Nat.and_two_pow n 15
    norm_num at this
    exact this
  have htb : n.testBit 15 = decide (n / 2 ^ 15 % 2 = 1) := Nat.testBit_to_div_mod
  have hmask : n &&& 32767 = n % 32768 := by
    have := Nat.and_pow_two_sub_one_eq_mod n 15
    norm_num at this
    exact this
  by_cases hge : 32768 ≤ n
  · have hbit : n.testBit 15 = true := by
      rw [htb]
      simp
      omega
    refine ⟨by simp [h15, hbit], by simp [h15, hbit, hge], ?_⟩
    intro m hm
    simp [h15, hbit] at hm
  · have hbit : n.testBit 15 = false := by
      rw [htb]
      simp
      omega
    have h0 : n &&& 32768 = 0 := by
      rw [h15, hbit]
      rfl
    have hm2 : n &&& 32767 = n := by
      rw [hmask]
      omega
    refine ⟨?_, ?_, ?_⟩
    · simp only [h0, ne_eq, not_true_eq_false, ite_false]
      split_ifs <;> rfl
    · simp only [h0, ne_eq, not_true_eq_false, ite_false, hm2, hbit]
      split_ifs with h1 h2
      · simp [h1]
      · simp
        omega
      · simp
        omega
    · intro m hm
      simp only [h0, ne_eq, not_true_eq_false, ite_false, hm2] at hm
      split_ifs at hm with h1 h2
      simp at hm
      exact ⟨by rw [hm2, hm], hm.symm⟩

/-- Witness for `pollHeaderStep_discard_iff`: a 21-byte header (`15 00`) passes
the checks, and the counters are untouched. -/
theorem pollHeaderStep_discard_iff_witness :
    (21 : Nat) < 256 ∧ (0 : Nat) < 256 ∧
    (pollHeaderStep (fun _ => 0) 21 0).2 = (fun _ => 0) :=
  ⟨by decide, by decide,
    (pollHeaderStep_discard_iff (fun _ => 0) 21 0 (by decide) (by decide)).1⟩

/-- Little-endian encoding of a 32-bit value, as produced by the four literal
interval bytes in the set-feature payloads of the source programs. -/
def uint32le (n : Nat) : List Nat :=
  [n % 256, n / 256 % 256, n / 65536 % 256, n / 16777216 % 256]

/-- Modelled from the spec: the driver's `EnableReport(sensorID, intervalMicros)`
(in the external `tinygo.org/x/drivers/bno08x` package, not under `src/`) sends
on channel 2 a single Set Feature command
`0xFD, sensorID, flags(1), sensitivity(2 LE), interval(4 LE), batchInterval(4 LE),
sensorSpecific(4 LE)` with flags, sensitivity, batch interval and
sensor-specific fields zero.  The payload shape matches the literal 17-byte
payloads in `comprehensive_test/main.go` lines 99-107 and
`setfeature_test/main.go` lines 106-114. -/
def setFeaturePayload (sid interval : Nat) : List Nat :=
  [253, sid, 0, 0, 0] ++ uint32le interval ++ uint32le 0 ++ uint32le 0

/-- Modelled from the spec: `EnableReport` performs exactly one bus write, the
frame built by the channel-2 send of the set-feature payload. -/
def enableReportWrite (sid interval : Nat) (seq : Fin 6 → Nat) :
    List Nat × (Fin 6 → Nat) :=
  sendOnChannel seq 2 (setFeaturePayload sid interval)

/-- C2: enabling the game rotation vector (sensor 0x08) at 10000 microseconds
with a fresh channel-2 counter produces the single 21-byte frame
`15 00 02 00 FD 08 00 00 00 10 27 00 00 00 00 00 00 00 00 00 00`. -/
theorem enableReport_gameRotation_frame :
    (enableReportWrite 8 10000 (fun _ => 0)).1 =
      [0x15, 0x00, 0x02, 0x00, 0xFD, 0x08, 0x00, 0x00, 0x00, 0x10, 0x27, 0x00,
        0x00, 0x00, 0x00, 0x00, 0x00, 0x00, 0x00, 0x00, 0x00] ∧
    (enableReportWrite 8 10000 (fun _ => 0)).1.length = 21 := by
  constructor <;> rfl

/-- Initialize command payload from `comprehensive_test/main.go` line 59. -/
def initCmd_comprehensive : List Nat :=
  [0xF2, 0, 0x04, 0x01, 0, 0, 0, 0, 0, 0, 0, 0, 0]

/-- Initialize command payload from `setfeature_test/main.go` lines 78-84. -/
def initPayload_setfeature : List Nat :=
  [0xF2, 0x00, 0x04, 0x01, 0x00, 0x00, 0x00, 0x00, 0x00, 0x00, 0x00, 0x00, 0x00]

/-- Initialize frame built by `setfeature_test/main.go` lines 85-90:
length `4 + len(payload)` little-endian, channel 2, sequence 0, then payload. -/
def initFrame_setfeature : List Nat :=
  (4 + initPayload_setfeature.length) % 256 ::
    ((4 + initPayload_setfeature.length) / 256) % 256 :: 2 :: 0 ::
    initPayload_setfeature

/-- Initialize command payload from the channel-debug program
(`src/unnamed/part_002` line 93): the single byte `0x02`. -/
def initCmd_channelDebug : List Nat := [0x02]

/-- C6 counterexample: the channel-debug program's Initialize command payload is
the single byte `0x02`, not the 13-byte `F2 00 04 01` command followed by nine
zero bytes, so not every Initialize command in the repository carries that
payload. -/
theorem initCmd_channelDebug_ne_spec :
    initCmd_channelDebug ≠ [0xF2, 0, 0x04, 0x01, 0, 0, 0, 0, 0, 0, 0, 0, 0] := by
  decide

/-- C6 amended: the Initialize commands of `comprehensive_test` and
`setfeature_test` are sent on channel 2 with payload exactly `F2 00 04 01`
followed by nine `0x00` bytes (13 bytes), framed as `11 00 02 00` plus payload;
the channel-debug program instead sends the single byte `0x02` on channel 2. -/
theorem initCmd_channel2_payloads :
    initCmd_comprehensive = 0xF2 :: 0 :: 0x04 :: 0x01 :: List.replicate 9 0 ∧
    initPayload_setfeature = initCmd_comprehensive ∧
    initFrame_setfeature = [0x11, 0, 2, 0] ++ initCmd_comprehensive ∧
    (sendOnChannel (fun _ => 0) 2 initCmd_comprehensive).1 =
      [0x11, 0, 2, 0] ++ initCmd_comprehensive ∧
    (sendOnChannel (fun _ => 0) 2 initCmd_channelDebug).1 = [5, 0, 2, 0, 0x02] := by
  refine ⟨by decide, by decide, by decide, by decide, by decide⟩

/-- Soft-reset frame from `comprehensive_test/main.go` line 27 (also
`i2c_test/main.go` line 32 and `setfeature_test/main.go` line 29). -/
def softResetFrame : List Nat := [5, 0, 1, 0, 1]

/-- Soft-reset retry loop from `comprehensive_test/main.go` lines 28-34:
up to 5 attempts; each attempt writes the soft-reset frame and stops on the
first success, sleeping 30 ms after each failure.  `fails attempt` tells
whether the bus write of the given attempt fails.  Returns the list of frames
written and the number of 30 ms delays taken.  The fuel argument is the number
of attempts remaining (5 at the top-level call). -/
def softResetGo (fails : Nat → Bool) (attempt : Nat) : Nat → List (List Nat) × Nat
  | 0 => ([], 0)
  | fuel + 1 =>
    if fails attempt then
      let r := softResetGo fails (attempt + 1) fuel
      (softResetFrame :: r.1, r.2 + 1)
    else ([softResetFrame], 0)

/-- Top-level soft-reset retry loop (`for attempt := 0; attempt < 5; attempt++`). -/
def softReset (fails : Nat → Bool) : List (List Nat) × Nat :=
  softResetGo fails 0 5

/-- Single-attempt soft-reset send of `i2c_test/main.go` lines 31-39 (the same
pattern as `setfeature_test/main.go` lines 28-34): the frame is written once;
on failure the program prints and returns without any retry.  Returns the list
of frames written and whether the program aborts. -/
def softResetOnce (fails : Nat → Bool) : List (List Nat) × Bool :=
  ([softResetFrame], fails 0)

/-- C8 counterexample: on a bus whose first write fails (and whose second
would succeed), the soft-reset send of `i2c_test` performs exactly one write
and aborts — the failed write is never retried — whereas the
`comprehensive_test` retry loop writes a second frame; so it is not true of
the claim's cited `i2c_test` code that a failed soft-reset write is retried. -/
theorem i2cTest_softReset_no_retry :
    (softResetOnce (fun n => decide (n = 0))).1.length = 1 ∧
    (softResetOnce (fun n => decide (n = 0))).2 = true ∧
    (softReset (fun n => decide (n = 0))).1.length = 2 := by
  refine ⟨rfl, by decide, by decide⟩

theorem softResetGo_writes (fails : Nat → Bool) :
    ∀ fuel attempt w, w ∈ (softResetGo fails attempt fuel).1 → w = softResetFrame := by
  intro fuel
  induction fuel with
  | zero => intro attempt w hw; simp [softResetGo] at hw
  | succ n ih =>
    intro attempt w hw
    by_cases hf : fails attempt
    · simp [softResetGo, hf] at hw
      rcases hw with hw | hw
      · exact hw
      · exact ih (attempt + 1) w hw
    · simp [softResetGo, hf] at hw
      exact hw

theorem softResetGo_len_le (fails : Nat → Bool) :
    ∀ fuel attempt, (softResetGo fails attempt fuel).1.length ≤ fuel := by
  intro fuel
  induction fuel with
  | zero => intro attempt; simp [softResetGo]
  | succ n ih =>
    intro attempt
    by_cases hf : fails attempt
    · simp [softResetGo, hf]
      exact ih (attempt + 1)
    · simp [softResetGo, hf]

theorem softResetGo_first_success (fails : Nat → Bool) :
    ∀ fuel attempt k, k < fuel → (∀ j, j < k → fails (attempt + j) = true) →
      fails (attempt + k) = false →
      (softResetGo fails attempt fuel).1.length = k + 1 ∧
      (softResetGo fails attempt fuel).2 = k := by
  intro fuel
  induction fuel with
  | zero => intro attempt k hk; omega
  | succ n ih =>
    intro attempt k hk hfail hsucc
    match k with
    | 0 =>
      have h0 : fails attempt = false := by simpa using hsucc
      simp [softResetGo, h0]
    | k + 1 =>
      have h0 : fails attempt = true := by simpa using hfail 0 (by omega)
      have hrec := ih (attempt + 1) k (by omega)
        (fun j hj => by
          have := hfail (j + 1) (by omega)
          simpa [Nat.add_assoc, Nat.add_comm 1 j] using this)
        (by simpa [Nat.add_assoc, Nat.add_comm 1 k] using hsucc)
      simp [softResetGo, h0, hrec.1, hrec.2]

theorem softResetGo_all_fail (fails : Nat → Bool) :
    ∀ fuel attempt, (∀ j, j < fuel → fails (attempt + j) = true) →
      (softResetGo fails attempt fuel).1.length = fuel ∧
      (softResetGo fails attempt fuel).2 = fuel := by
  intro fuel
  induction fuel with
  | zero => intro attempt _; simp [softResetGo]
  | succ n ih =>
    intro attempt hfail
    have h0 : fails attempt = true := by simpa using hfail 0 (by omega)
    have hrec := ih (attempt + 1)
      (fun j hj => by
        have := hfail (j + 1) (by omega)
        simpa [Nat.add_assoc, Nat.add_comm 1 j] using this)
    simp [softResetGo, h0, hrec.1, hrec.2]

/-- C8 amended: every soft-reset bus write is exactly the 5 bytes
`05 00 01 00 01` (an executable-channel frame: byte 2 is channel 1).  In
`comprehensive_test`'s startup loop at most 5 write attempts are made; if the
first successful write is attempt `k` the loop stops there, having written
`k + 1` frames with a 30 ms delay after each of the `k` failures; if all 5
attempts fail the loop stops after 5 writes.  `i2c_test` (and
`setfeature_test`) instead write the frame exactly once and abort on failure
without retrying. -/
theorem softReset_retry_policy (fails : Nat → Bool) :
    softResetFrame = [0x05, 0x00, 0x01, 0x00, 0x01] ∧
    softResetFrame.getD 2 0 = 1 ∧
    (∀ w ∈ (softReset fails).1, w = softResetFrame) ∧
    (softReset fails).1.length ≤ 5 ∧
    (∀ k, k < 5 → (∀ j, j < k → fails j = true) → fails k = false →
      (softReset fails).1.length = k + 1 ∧ (softReset fails).2 = k) ∧
    ((∀ j, j < 5 → fails j = true) →
      (softReset fails).1.length = 5 ∧ (softReset fails).2 = 5) ∧
    ((softResetOnce fails).1 = [softResetFrame] ∧
      (softResetOnce fails).2 = fails 0) := by
  refine ⟨rfl, rfl, ?_, softResetGo_len_le fails 5 0, ?_, ?_, rfl, rfl⟩
  · intro w hw
    exact softResetGo_writes fails 5 0 w hw
  · intro k hk hfail hsucc
    exact softResetGo_first_success fails 5 0 k hk
      (fun j hj => by simpa using hfail j hj) (by simpa using hsucc)
  · intro hfail
    exact softResetGo_all_fail fails 5 0 (fun j hj => by simpa using hfail j hj)

/-- Witness for `softReset_retry_policy`: a bus that fails the first two write
attempts leads to exactly three writes and two 30 ms delays. -/
theorem softReset_retry_policy_witness :
    (2 : Nat) < 5 ∧
    (softReset (fun n => decide (n < 2))).1.length = 2 + 1 ∧
    (softReset (fun n => decide (n < 2))).2 = 2 :=
  ⟨by decide,
    ((softReset_retry_policy (fun n => decide (n < 2))).2.2.2.2.1 2 (by decide)
      (by decide) (by decide)).1,
    ((softReset_retry_policy (fun n => decide (n < 2))).2.2.2.2.1 2 (by decide)
      (by decide) (by decide)).2⟩

/-- Output records of `parseAdvertisement` in `setfeature_test/main.go`
(the lines it prints): a normal-channel assignment, a wake-channel assignment,
or the version string. -/
inductive AdvEntry where
  | normal : Nat → List Nat → AdvEntry
  | wake : Nat → List Nat → AdvEntry
  | version : List Nat → AdvEntry
deriving DecidableEq

/-- Go slice expression `payload[j : j+n]`, `none` when the bounds are outside
the slice (a Go panic). -/
def goSlice (l : List Nat) (j n : Nat) : Option (List Nat) :=
  if j + n ≤ l.length then some ((l.drop j).take n) else none

/-- TLV walk of `parseAdvertisement` in `setfeature_test/main.go` lines 181-216.
The loop runs while `i < len(payload)-2`; it reads `tag = payload[i]`,
`length = payload[i+1]`, advances `i` by 2, breaks when `i+length` overruns the
payload, takes `value = payload[i:i+length]`, advances `i` by `length`, and
emits a record for tags 6 (normal channel, only when `length > 1`:
`value[0]` then `value[1:]`), 7 (wake channel, same shape) and 0x80 (version);
any other tag emits nothing.  Indexing and slicing are `Option`-valued so that
an out-of-bounds access (a Go panic) surfaces as `none`; `fuel` bounds the
number of iterations (the top-level call supplies more than enough). -/
def parseAdvLoop (payload : List Nat) : Nat → Nat → Option (List AdvEntry)
  | 0, _ => none
  | fuel + 1, i =>
    if i < payload.length - 2 then
      match payload.get? i, payload.get? (i + 1) with
      | some tag, some length =>
        if payload.length < i + 2 + length then some []
        else
          match goSlice payload (i + 2) length, parseAdvLoop payload fuel (i + 2 + length) with
          | some value, some rest =>
            if tag = 6 then
              if 1 < length then
                match value.get? 0 with
                | some ch => some (AdvEntry.normal ch (value.drop 1) :: rest)
                | none => none
              else some rest
            else if tag = 7 then
              if 1 < length then
                match value.get? 0 with
                | some ch => some (AdvEntry.wake ch (value.drop 1) :: rest)
                | none => none
              else some rest
            else if tag = 128 then some (AdvEntry.version value :: rest)
            else some rest
          | _, _ => none
      | _, _ => none
    else some []

/-- The `parseAdvertisement` function of `setfeature_test/main.go`, started at
cursor 0 with enough fuel for every iteration. -/
def parseAdvertisement (payload : List Nat) : Option (List AdvEntry) :=
  parseAdvLoop payload (payload.length + 1) 0

theorem parseAdvLoop_isSome (payload : List Nat) :
    ∀ fuel i, payload.length - i < fuel → (parseAdvLoop payload fuel i).isSome := by
  intro fuel
  induction fuel with
  | zero => intro i hi; omega
  | succ n ih =>
    intro i hi
    rw [parseAdvLoop]
    by_cases hrec : i < payload.length - 2
    · have hi0 : i < payload.length := by omega
      have hi1 : i + 1 < payload.length := by omega
      rw [List.get?_eq_get hi0, List.get?_eq_get hi1]
      simp only [hrec, if_true]
      set tag := payload.get ⟨i, hi0⟩ with htag
      set length := payload.get ⟨i + 1, hi1⟩ with hlen
      by_cases hfit : payload.length < i + 2 + length
      · simp [hfit]
      · have hslice : goSlice payload (i + 2) length =
            some ((payload.drop (i + 2)).take length) := by
          simp [goSlice]
          omega
        have hrest := ih (i + 2 + length) (by omega)
        obtain ⟨rest, hrestEq⟩ := Option.isSome_iff_exists.mp hrest
        rw [hslice, hrestEq]
        simp only [hfit, if_false]
        have hvlen : ((payload.drop (i + 2)).take length).length = length := by
          simp
          omega
        by_cases h6 : tag = 6
        · simp only [h6, if_true]
          by_cases hl : 1 < length
          · have hv0 : ((payload.drop (i + 2)).take length).get? 0 =
                some (((payload.drop (i + 2)).take length).get ⟨0, by omega⟩) :=
              List.get?_eq_get (by omega)
            rw [hv0]
            simp [hl]
          · simp [hl]
        · by_cases h7 : tag = 7
          · simp only [h6, if_false, h7, if_true]
            by_cases hl : 1 < length
            · have hv0 : ((payload.drop (i + 2)).take length).get? 0 =
                  some (((payload.drop (i + 2)).take length).get ⟨0, by omega⟩) :=
                List.get?_eq_get (by omega)
              rw [hv0]
              simp [hl]
            · simp [hl]
          · by_cases h128 : tag = 128 <;> simp [h6, h7, h128]
    · simp [hrec]

/-- C10: the TLV walk of `parseAdvertisement` never reads out of bounds and
terminates on every input: for every payload the parse returns a result
(every `payload[i]`, `payload[i+1]` and `payload[i:i+length]` access is in
bounds, because a record whose declared length would overrun the payload ends
the loop instead of being read). -/
theorem parseAdvertisement_total_inbounds (payload : List Nat) :
    ∃ r, parseAdvertisement payload = some r := by
  have h := parseAdvLoop_isSome payload (payload.length + 1) 0 (by omega)
  exact Option.isSome_iff_exists.mp h

/-- Inline advertisement parse of the channel-debug program
(`src/unnamed/part_002` lines 55-80): a TLV walk over the re-read packet
`advert` in which tag 4 with length 1 sets the current channel number and tag 8
records a name for the current channel; the loop breaks when fewer than two
bytes remain or a record's declared length overruns `advertLen`.  Returns the
`(channel, name)` pairs added to the channel map, in order.  The top-level call
starts at cursor 5 (after the 4 header bytes and the report-ID byte) with
current channel 0. -/
def channelDebugLoop (advert : List Nat) : Nat → Nat → Nat → List (Nat × List Nat)
  | 0, _, _ => []
  | fuel + 1, cursor, currentChan =>
    if cursor < advert.length then
      if advert.length ≤ cursor + 1 then []
      else
        let tag := advert.getD cursor 0
        let length := advert.getD (cursor + 1) 0
        if advert.length < cursor + 2 + length then []
        else
          let cur2 := if tag = 4 ∧ length = 1 then advert.getD (cursor + 2) 0
            else currentChan
          let entry := if tag = 8 ∧ 0 < length ∧ 0 < cur2 then
              [(cur2, (advert.drop (cursor + 2)).take length)]
            else []
          entry ++ channelDebugLoop advert fuel (cursor + 2 + length) cur2
    else []

/-- Channel map built by the channel-debug program from a full advertisement
packet (4-byte header, report-ID byte, then TLV records). -/
def channelDebugChannels (advert : List Nat) : List (Nat × List Nat) :=
  channelDebugLoop advert (advert.length + 1) 5 0

/-- C7 counterexample: the channel-debug program's advertisement parse of a
packet whose TLV records use only tags 4 and 8 (no byte is 6, 7 or 0x80)
produces the channel assignment `(3, "A")`, so advertisement parsing in this
repository does not interpret tag 6 as the normal-channel tag and skip every
other tag: the channel-debug parser assigns channels from tags 4 and 8. -/
theorem channelDebug_tag4_assigns :
    channelDebugChannels [0, 0, 0, 0, 0, 4, 1, 3, 8, 1, 65] = [(3, [65])] ∧
    ([0, 0, 0, 0, 0, 4, 1, 3, 8, 1, 65] : List Nat).all
      (fun b => decide (b ≠ 6 ∧ b ≠ 7 ∧ b ≠ 128)) = true := by
  constructor <;> decide

/-- C7 amended: `parseAdvertisement` in `setfeature_test/main.go` walks the
payload as TLV records, interpreting tag 6 as a normal-channel assignment
(channel byte then ASCII name, emitted only when the record length exceeds 1),
tag 7 as a wake-channel assignment of the same shape, tag 0x80 as the version
string, and skipping every other tag by advancing past its declared length;
the channel-debug program's inline parser instead assigns channels from tag 4
(channel number) and tag 8 (channel name) records. -/
theorem parseAdvertisement_tlv_step (payload : List Nat) (fuel i tag length : Nat)
    (hrec : i < payload.length - 2)
    (htag : payload.get? i = some tag)
    (hlen : payload.get? (i + 1) = some length)
    (hfit : i + 2 + length ≤ payload.length) :
    parseAdvLoop payload (fuel + 1) i =
      if tag = 6 then
        if 1 < length then
          Option.map (fun rest => AdvEntry.normal
              (((payload.drop (i + 2)).take length).headD 0)
              (((payload.drop (i + 2)).take length).drop 1) :: rest)
            (parseAdvLoop payload fuel (i + 2 + length))
        else parseAdvLoop payload fuel (i + 2 + length)
      else if tag = 7 then
        if 1 < length then
          Option.map (fun rest => AdvEntry.wake
              (((payload.drop (i + 2)).take length).headD 0)
              (((payload.drop (i + 2)).take length).drop 1) :: rest)
            (parseAdvLoop payload fuel (i + 2 + length))
        else parseAdvLoop payload fuel (i + 2 + length)
      else if tag = 128 then
        Option.map (fun rest => AdvEntry.version ((payload.drop (i + 2)).take length) :: rest)
          (parseAdvLoop payload fuel (i + 2 + length))
      else parseAdvLoop payload fuel (i + 2 + length) := by
  rw [parseAdvLoop]
  rw [htag, hlen]
  simp only [hrec, if_true]
  have hnfit : ¬ payload.length < i + 2 + length := by omega
  simp only [hnfit, if_false]
  have hslice : goSlice payload (i + 2) length =
      some ((payload.drop (i + 2)).take length) := by
    simp [goSlice]
    omega
  rw [hslice]
  have hvlen : ((payload.drop (i + 2)).take length).length = length := by
    simp
    omega
  rcases hrest : parseAdvLoop payload fuel (i + 2 + length) with _ | rest
  · by_cases h6 : tag = 6 <;> by_cases h7 : tag = 7 <;> by_cases h128 : tag = 128 <;>
      simp [h6, h7, h128]
  · by_cases h6 : tag = 6
    · subst h6
      simp only [if_true]
      by_cases hl : 1 < length
      · have hne : (payload.drop (i + 2)).take length ≠ [] := by
          intro hnil
          rw [hnil] at hvlen
          simp at hvlen
          omega
        have hv0 : ((payload.drop (i + 2)).take length).get? 0 =
            some (((payload.drop (i + 2)).take length).headD 0) := by
          rcases hv : (payload.drop (i + 2)).take length with _ | ⟨a, tl⟩
          · exact absurd hv hne
          · rfl
        rw [hv0]
        simp [hl]
      · simp [hl]
    · by_cases h7 : tag = 7
      · subst h7
        simp only [h6, if_false, if_true]
        by_cases hl : 1 < length
        · have hne : (payload.drop (i + 2)).take length ≠ [] := by
            intro hnil
            rw [hnil] at hvlen
            simp at hvlen
            omega
          have hv0 : ((payload.drop (i + 2)).take length).get? 0 =
              some (((payload.drop (i + 2)).take length).headD 0) := by
            rcases hv : (payload.drop (i + 2)).take length with _ | ⟨a, tl⟩
            · exact absurd hv hne
            · rfl
          rw [hv0]
          simp [hl]
        · simp [hl]
      · by_cases h128 : tag = 128 <;> simp [h6, h7, h128]

/-- Witness for `parseAdvertisement_tlv_step`: a payload holding one tag-6
record with channel byte 2 and name bytes `AB` parses to that single
normal-channel assignment. -/
theorem parseAdvertisement_tlv_step_witness :
    parseAdvLoop [6, 3, 2, 65, 66] 6 0 = some [AdvEntry.normal 2 [65, 66]] := by
  have h := parseAdvertisement_tlv_step [6, 3, 2, 65, 66] 5 0 6 3
    (by decide) (by decide) (by decide) (by decide)
  rw [h]
  decide

/-- Modelled from the spec: a device-side read of `n` bytes returns the first
`n` bytes of the pending packet, because the device FIFO pointer does not
advance across transactions (spec section 4.2 step 3); the device itself is
hardware, not code under `src/`. -/
def deviceRead (packet : List Nat) (n : Nat) : List Nat := packet.take n

/-- Size of the second (full-packet) read in `comprehensive_test/main.go`
line 145 (`make([]byte, length)`), also used by `hybrid_test` and the
channel-debug program. -/
def fullPacketReadLen (length : Nat) : Nat := length

/-- Channel byte of the re-read packet, `comprehensive_test/main.go` line 152. -/
def fullPacketChannel (fullPacket : List Nat) : Nat := fullPacket.getD 2 0

/-- Payload of the re-read packet: the bytes from offset 4 on
(`comprehensive_test/main.go` lines 158-159 index `fullPacket[4..]`). -/
def fullPacketPayload (fullPacket : List Nat) : List Nat := fullPacket.drop 4

/-- Size of the second read in `i2c_test/main.go` line 60 and
`setfeature_test/main.go` line 163: `make([]byte, length-4)`. -/
def remainingReadLen (length : Nat) : Nat := length - 4

/-- C5 counterexample: for a packet of header length 20, the second bus read of
`i2c_test` (and `setfeature_test`) requests `remainingReadLen 20 = 16` bytes,
not the 20 bytes the claim requires of every packet read. -/
theorem i2cTest_second_read_not_full :
    remainingReadLen 20 = 16 ∧ remainingReadLen 20 ≠ fullPacketReadLen 20 := by
  constructor <;> decide

/-- C5 amended: in `comprehensive_test`, `hybrid_test` and the channel-debug
program the second bus read requests `length` bytes total; since the device
repeats the packet from its start, that read returns the whole packet, its
byte 2 is the channel and its bytes 4..length are the payload.  `i2c_test` and
`setfeature_test` instead request only the remaining `length - 4` bytes and
take the channel from the first (header) read. -/
theorem fullPacket_reread (P : List Nat) (h4 : 4 ≤ P.length) :
    fullPacketReadLen P.length = P.length ∧
    deviceRead P (fullPacketReadLen P.length) = P ∧
    fullPacketChannel (deviceRead P (fullPacketReadLen P.length)) = P.getD 2 0 ∧
    fullPacketPayload (deviceRead P (fullPacketReadLen P.length)) = P.drop 4 ∧
    remainingReadLen P.length = P.length - 4 := by
  refine ⟨rfl, ?_, ?_, ?_, rfl⟩
  · simp [deviceRead, fullPacketReadLen]
  · simp [deviceRead, fullPacketReadLen, fullPacketChannel]
  · simp [deviceRead, fullPacketReadLen, fullPacketPayload]

/-- Witness for `fullPacket_reread`: a concrete 6-byte channel-2 packet is
returned whole by the full re-read, with channel byte 2 and a 2-byte payload. -/
theorem fullPacket_reread_witness :
    4 ≤ ([6, 0, 2, 0, 249, 0] : List Nat).length ∧
    deviceRead [6, 0, 2, 0, 249, 0]
      (fullPacketReadLen ([6, 0, 2, 0, 249, 0] : List Nat).length) =
      [6, 0, 2, 0, 249, 0] :=
  ⟨by decide, (fullPacket_reread [6, 0, 2, 0, 249, 0] (by decide)).2.1⟩

/-- Quaternion produced by the driver's sensor events (`bno08x.Quaternion` with
fields I, J, K, Real), with the component type abstracted to `ℚ`. -/
structure Quat where
  i : ℚ
  j : ℚ
  k : ℚ
  real : ℚ

/-- Primitive float operations used by the quaternion-to-Euler conversions
(`math.Atan2`, `math.Asin` and the constant `math.Pi/2`), kept abstract: the
three source copies apply the identical operations, so every fact below holds
for any interpretation of them. -/
structure FloatOps where
  atan2 : ℚ → ℚ → ℚ
  asin : ℚ → ℚ
  halfPi : ℚ

/-- Transcription of `quaternionToEuler` from `gopherclaw/main.go` lines
110-130: roll = atan2 of `2(real·i + j·k)` and `1 − 2(i² + j²)`; pitch from
`sinp = 2(real·j − k·i)`, clamped to `±π/2` (the sign of `sinp`) when
`|sinp| ≥ 1` and `asin(sinp)` otherwise; yaw = atan2 of `2(real·k + i·j)` and
`1 − 2(j² + k²)`. -/
def quaternionToEuler_gopherclaw (ops : FloatOps) (q : Quat) : ℚ × ℚ × ℚ :=
  let sinr_cosp := 2 * (q.real * q.i + q.j * q.k)
  let cosr_cosp := 1 - 2 * (q.i * q.i + q.j * q.j)
  let roll := ops.atan2 sinr_cosp cosr_cosp
  let sinp := 2 * (q.real * q.j - q.k * q.i)
  let pitch := if 1 ≤ |sinp| then (if sinp < 0 then -ops.halfPi else ops.halfPi)
    else ops.asin sinp
  let siny_cosp := 2 * (q.real * q.k + q.i * q.j)
  let cosy_cosp := 1 - 2 * (q.j * q.j + q.k * q.k)
  let yaw := ops.atan2 siny_cosp cosy_cosp
  (roll, pitch, yaw)

/-- Transcription of `quaternionToEuler` from the NeoPixel demo
(`src/unnamed/part_001` lines 93-113), textually identical to the gopherclaw
copy. -/
def quaternionToEuler_neopixel (ops : FloatOps) (q : Quat) : ℚ × ℚ × ℚ :=
  let sinr_cosp := 2 * (q.real * q.i + q.j * q.k)
  let cosr_cosp := 1 - 2 * (q.i * q.i + q.j * q.j)
  let roll := ops.atan2 sinr_cosp cosr_cosp
  let sinp := 2 * (q.real * q.j - q.k * q.i)
  let pitch := if 1 ≤ |sinp| then (if sinp < 0 then -ops.halfPi else ops.halfPi)
    else ops.asin sinp
  let siny_cosp := 2 * (q.real * q.k + q.i * q.j)
  let cosy_cosp := 1 - 2 * (q.j * q.j + q.k * q.k)
  let yaw := ops.atan2 siny_cosp cosy_cosp
  (roll, pitch, yaw)

/-- Transcription of `quaternionToEuler` from `quatplot/main.go` lines 564-584,
textually identical to the gopherclaw copy. -/
def quaternionToEuler_quatplot (ops : FloatOps) (q : Quat) : ℚ × ℚ × ℚ :=
  let sinr_cosp := 2 * (q.real * q.i + q.j * q.k)
  let cosr_cosp := 1 - 2 * (q.i * q.i + q.j * q.j)
  let roll := ops.atan2 sinr_cosp cosr_cosp
  let sinp := 2 * (q.real * q.j - q.k * q.i)
  let pitch := if 1 ≤ |sinp| then (if sinp < 0 then -ops.halfPi else ops.halfPi)
    else ops.asin sinp
  let siny_cosp := 2 * (q.real * q.k + q.i * q.j)
  let cosy_cosp := 1 - 2 * (q.j * q.j + q.k * q.k)
  let yaw := ops.atan2 siny_cosp cosy_cosp
  (roll, pitch, yaw)

/-- C9: the three copies of `quaternionToEuler` agree on every input for every
interpretation of the primitive float operations, and the pitch component is
clamped to `±π/2` (sign of `sinp`) exactly when `|2(real·j − k·i)| ≥ 1`,
otherwise it is `asin` of that value. -/
theorem quaternionToEuler_copies_agree (ops : FloatOps) (q : Quat) :
    quaternionToEuler_gopherclaw ops q = quaternionToEuler_neopixel ops q ∧
    quaternionToEuler_neopixel ops q = quaternionToEuler_quatplot ops q ∧
    (1 ≤ |2 * (q.real * q.j - q.k * q.i)| →
      (quaternionToEuler_gopherclaw ops q).2.1 =
        if 2 * (q.real * q.j - q.k * q.i) < 0 then -ops.halfPi else ops.halfPi) ∧
    (|2 * (q.real * q.j - q.k * q.i)| < 1 →
      (quaternionToEuler_gopherclaw ops q).2.1 =
        ops.asin (2 * (q.real * q.j - q.k * q.i))) := by
  refine ⟨rfl, rfl, ?_, ?_⟩
  · intro h
    simp only [quaternionToEuler_gopherclaw]
    rw [if_pos h]
  · intro h
    simp only [quaternionToEuler_gopherclaw]
    rw [if_neg (not_le.mpr h)]

/-- Witness for `quaternionToEuler_copies_agree`: at the quaternion
`(i, j, k, real) = (0, 1, 0, 1)` the clamp branch is taken and pitch is
`+halfPi`. -/
theorem quaternionToEuler_copies_agree_witness :
    1 ≤ |2 * ((1 : ℚ) * 1 - 0 * 0)| ∧
    (quaternionToEuler_gopherclaw ⟨fun _ _ => 0, fun x => x, 2⟩ ⟨0, 1, 0, 1⟩).2.1 =
      if 2 * ((1 : ℚ) * 1 - 0 * 0) < 0 then -(2 : ℚ) else (2 : ℚ) :=
  ⟨by norm_num,
    (quaternionToEuler_copies_agree ⟨fun _ _ => 0, fun x => x, 2⟩
      ⟨0, 1, 0, 1⟩).2.2.1 (by norm_num)⟩

/-- Modelled from the spec: the report decoder (in the external
`tinygo.org/x/drivers/bno08x` package, not under `src/`) reads a signed 16-bit
little-endian component and interprets it by two's complement. -/
def toInt16 (u : Nat) : Int := if u < 32768 then (u : Int) else (u : Int) - 65536

/-- Modelled from the spec: a fixed-point field with raw bytes `lo`, `hi` and
Q-point `q` decodes to the signed 16-bit value divided by `2^q`.  The value
`v / 2^q` with `|v| ≤ 2^15` is exactly representable in IEEE-754 float32, so
exact rational equality implies the claim's ±1 ulp tolerance. -/
def decodeFixedPoint (lo hi q : Nat) : ℚ := (toInt16 (lo + 256 * hi) : ℚ) / 2 ^ q

/-- Modelled from the spec: a vector-3 report body of three little-endian
signed 16-bit components, each scaled by the sensor's Q-point. -/
def decodeVector3 (b : List Nat) (q : Nat) : ℚ × ℚ × ℚ :=
  (decodeFixedPoint (b.getD 0 0) (b.getD 1 0) q,
   decodeFixedPoint (b.getD 2 0) (b.getD 3 0) q,
   decodeFixedPoint (b.getD 4 0) (b.getD 5 0) q)

/-- Low byte of the two's-complement 16-bit encoding of `v`. -/
def int16lo (v : Int) : Nat := (v % 65536).toNat % 256

/-- High byte of the two's-complement 16-bit encoding of `v`. -/
def int16hi (v : Int) : Nat := (v % 65536).toNat / 256

theorem toInt16_roundtrip (v : Int) (h1 : -32768 ≤ v) (h2 : v < 32768) :
    toInt16 (int16lo v + 256 * int16hi v) = v := by
  unfold toInt16 int16lo int16hi
  split_ifs with h <;> omega

/-- C4: decoding a fixed-point vector-3 report with raw signed 16-bit
components `(rx, ry, rz)` and Q-point `q` yields exactly
`(rx·2^{-q}, ry·2^{-q}, rz·2^{-q})`; exact equality implies the claim's ±1 ulp
float32 tolerance since these values are representable. -/
theorem decodeVector3_qpoint (rx ry rz : Int) (q : Nat)
    (hx1 : -32768 ≤ rx) (hx2 : rx < 32768)
    (hy1 : -32768 ≤ ry) (hy2 : ry < 32768)
    (hz1 : -32768 ≤ rz) (hz2 : rz < 32768) :
    decodeVector3 [int16lo rx, int16hi rx, int16lo ry, int16hi ry,
        int16lo rz, int16hi rz] q =
      ((rx : ℚ) * 2 ^ (-(q : ℤ)), (ry : ℚ) * 2 ^ (-(q : ℤ)),
        (rz : ℚ) * 2 ^ (-(q : ℤ))) := by
  have hx := toInt16_roundtrip rx hx1 hx2
  have hy := toInt16_roundtrip ry hy1 hy2
  have hz := toInt16_roundtrip rz hz1 hz2
  have h2q : (2 : ℚ) ^ (-(q : ℤ)) = ((2 : ℚ) ^ q)⁻¹ := by
    rw [zpow_neg, zpow_natCast]
  simp only [decodeVector3, decodeFixedPoint, List.getD_cons_zero,
    List.getD_cons_succ, hx, hy, hz, h2q, div_eq_mul_inv]

/-- Witness for `decodeVector3_qpoint`: raw components `(2048, 0, 4096)` at Q8
decode to `(8, 0, 16)`. -/
theorem decodeVector3_qpoint_witness :
    (-32768 : Int) ≤ 2048 ∧ (2048 : Int) < 32768 ∧
    decodeVector3 [int16lo 2048, int16hi 2048, int16lo 0, int16hi 0,
        int16lo 4096, int16hi 4096] 8 =
      ((2048 : ℚ) * 2 ^ (-(8 : ℤ)), (0 : ℚ) * 2 ^ (-(8 : ℤ)),
        (4096 : ℚ) * 2 ^ (-(8 : ℤ))) :=
  ⟨by norm_num, by norm_num,
    decodeVector3_qpoint 2048 0 4096 8 (by norm_num) (by norm_num) (by norm_num)
      (by norm_num) (by norm_num) (by norm_num)⟩
